import Mathlib

/-!
Verification of the epub renamer (`ep_rename.py`, the canonical direct-parsing
variant) against its specification.

The program is embedded shallowly:
  * Python strings are Lean `String` (operated on through `String.data`,
    a `List Char`); the regex operations of `clean_fname` are embedded as
    explicit character-list transformations;
  * the minidom DOM is the mutual inductive `Node` / `NodeList` (element nodes
    with tag, attributes and children, and text nodes); a parsed XML document
    is its list of top-level child nodes (`Doc`);
  * a zip archive is `Archive` (a validity flag plus a path-indexed list of
    entries, each entry either parsing to a document or failing to parse);
  * Python exceptions are the `PyErr` type, and fallible code returns
    `Except PyErr`.
-/

/-! ## Python string primitives -/

/-- Whitespace as matched by Python's default `str.strip` and the regex
class of a whitespace character, restricted to the ASCII range. -/
def isPySpace (c : Char) : Bool :=
  c == ' ' || c == '\t' || c == '\n' || c == '\r' || c == '\x0b' || c == '\x0c'

/-- Word character as matched by the regex word class `\w`
(letters, digits, underscore); the `(?u)` flag of the source makes it
Unicode-aware, which this embedding restricts to the ASCII range that the
verified inputs use. -/
def isWordChar (c : Char) : Bool :=
  c.isAlphanum || c == '_'

/-- Python `str.strip()` on a character list: drop leading and trailing
whitespace. -/
def pyStripList (l : List Char) : List Char :=
  ((l.dropWhile isPySpace).reverse.dropWhile isPySpace).reverse

/-- Python `str.strip()`. -/
def pyStrip (s : String) : String :=
  ⟨pyStripList s.data⟩

/-- The substitution `re.sub(r"\s+", " ", s)`: every maximal run of
whitespace characters becomes a single space. -/
def collapseWs : List Char → List Char
  | [] => []
  | c :: rest =>
    match rest with
    | [] => if isPySpace c then [' '] else [c]
    | c2 :: _ =>
      if isPySpace c && isPySpace c2 then collapseWs rest
      else (if isPySpace c then ' ' else c) :: collapseWs rest

/-- The character class kept by `re.sub(r"(?u)[^-\w.\s]", "", s)`:
word characters, hyphen, dot and whitespace. -/
def allowedChar (c : Char) : Bool :=
  isWordChar c || c == '-' || c == '.' || isPySpace c

/-- `clean_fname` from the source: collapse whitespace runs to single
spaces, strip the ends, then delete every character that is not a word
character, hyphen, dot or whitespace. -/
def clean_fname (s : String) : String :=
  ⟨(pyStripList (collapseWs s.data)).filter allowedChar⟩

/-- How a Python f-string renders the title slot: the string itself, or
the literal text rendered for the `None` object. -/
def pyStrOfTitle : Option String → String
  | none => "None"
  | some s => s

/-- The destination-name computation of `process_file` on already-extracted
title and author strings: clean the composed `"{title} - {author}"`,
truncate to 254 characters when longer, then append the `.epub` extension. -/
def destNameStr (title author : String) : String :=
  ⟨(if 254 < (clean_fname (title ++ " - " ++ author)).data.length
    then (clean_fname (title ++ " - " ++ author)).data.take 254
    else (clean_fname (title ++ " - " ++ author)).data) ++ ".epub".data⟩

/-- Destination name as computed from extracted metadata (the title may be
the Python `None`, which the f-string renders as the text `"None"`). -/
def destName (title : Option String) (author : String) : String :=
  destNameStr (pyStrOfTitle title) author

/-! ## The minidom DOM model -/

mutual
/-- A minidom DOM node: an element (tag name, attributes, children) or a
text node. -/
inductive Node where
  | element (tag : String) (attrs : List (String × String)) (children : NodeList)
  | text (data : String)
/-- Children of an element node. -/
inductive NodeList where
  | nil
  | cons (head : Node) (tail : NodeList)
end

/-- A parsed XML document: the list of top-level child nodes of the
minidom `Document`. -/
abbrev Doc := List Node

/-- Build a `NodeList` from a Lean list literal. -/
def nodesOf : List Node → NodeList
  | [] => .nil
  | n :: rest => .cons n (nodesOf rest)

/-- Element-node constructor taking children as a Lean list literal. -/
def el (tag : String) (attrs : List (String × String)) (cs : List Node) : Node :=
  .element tag attrs (nodesOf cs)

/-- Text-node constructor. -/
def txt (d : String) : Node :=
  .text d

/-- minidom `node.nodeName`: the tag of an element, `"#text"` for a text
node. -/
def Node.nodeName : Node → String
  | .element t _ _ => t
  | .text _ => "#text"

/-- minidom `node.childNodes` as a Lean list. -/
def NodeList.toList : NodeList → List Node
  | .nil => []
  | .cons n rest => n :: rest.toList

/-- minidom `node.firstChild` (`None` when there are no children or on a
text node). -/
def Node.firstChild : Node → Option Node
  | .element _ _ .nil => none
  | .element _ _ (.cons n _) => some n
  | .text _ => none

/-- minidom `node.nodeValue`: the data of a text node, `None` on an
element. -/
def Node.nodeValue : Node → Option String
  | .element _ _ _ => none
  | .text d => some d

/-- Whether `node.nodeType == node.TEXT_NODE`. -/
def Node.isTextNode : Node → Bool
  | .element _ _ _ => false
  | .text _ => true

/-- minidom attribute access `node.attributes[key]`, `none` when the
attribute is absent. -/
def Node.attr : Node → String → Option String
  | .element _ attrs _, key => (attrs.find? (fun p => p.1 == key)).map (fun p => p.2)
  | .text _, _ => none

mutual
/-- Pre-order element traversal of a single node: the node itself (when it
is an element) followed by its element descendants in document order. -/
def iterNode : Node → List Node
  | .text _ => []
  | .element t a cs => .element t a cs :: iterList cs
/-- Pre-order element traversal of a child list. -/
def iterList : NodeList → List Node
  | .nil => []
  | .cons n rest => iterNode n ++ iterList rest
end

/-- `iterate_all_tags` from the source: the generator that yields every
element of the document depth-first in pre-order (text nodes are skipped,
and recursion descends through elements). -/
def iterate_all_tags : Doc → List Node
  | [] => []
  | n :: rest => iterNode n ++ iterate_all_tags rest

/-- minidom `getElementsByTagName`: all descendant elements with the given
tag name, in document order (pre-order). -/
def getElementsByTagName (doc : Doc) (name : String) : List Node :=
  (iterate_all_tags doc).filter (fun n => n.nodeName == name)

/-! ## Python exceptions -/

/-- The Python exceptions the program can raise, all of which subclass
`Exception` and are therefore caught by the per-file handler of the main
loop:
  * `notAContainer` — the `Exception("Unknown file ...")` raised when
    `zipfile.is_zipfile` fails;
  * `metadataUnavailable` — the
    `Exception("Cannot parse raw metadata ...")` raised when the guarded
    block raises `IndexError`;
  * `keyError` — a `KeyError` from `ZipFile.read` on a missing entry or
    from a missing XML attribute;
  * `indexError` — an `IndexError` from indexing an empty element list;
  * `attributeError` — an `AttributeError` from `None.strip()`;
  * `expatError` — an XML parse error from `minidom.parseString`. -/
inductive PyErr where
  | notAContainer
  | metadataUnavailable
  | keyError
  | indexError
  | attributeError
  | expatError
deriving DecidableEq, Repr

/-! ## Metadata discovery (`__discover_dc`, `_discover_title`,
`_find_author_from_dom`, `_discover_authors`) -/

/-- Python truthiness of an optional string (`None` and `""` are falsy). -/
def truthyS : Option String → Bool
  | none => false
  | some s => s != ""

/-- One lookup pass of `__discover_dc` with `first_only=True`: take the
first element with the given tag name; if there is none (`IndexError`) or
it has no first child, `value` is left unchanged; otherwise `value`
becomes the first child's `nodeValue`. -/
def lookupStep (doc : Doc) (name : String) (value : Option String) : Option String :=
  match (getElementsByTagName doc name).head? with
  | none => value
  | some n =>
    match n.firstChild with
    | none => value
    | some c => c.nodeValue

/-- `__discover_dc` with `first_only=True`: try the bare tag, fall back to
the `dc:`-prefixed tag when the value is falsy, and return the stripped
value when it is truthy (the falsy value itself otherwise). -/
def __discover_dc_first (doc : Doc) (name : String) : Option String :=
  let v1 := lookupStep doc name none
  let v := if truthyS v1 then v1 else lookupStep doc ("dc:" ++ name) v1
  if truthyS v then v.map pyStrip else v

/-- `_discover_title` from the source. -/
def _discover_title (doc : Doc) : Option String :=
  __discover_dc_first doc "title"

/-- The list comprehension
`[n.firstChild.nodeValue for n in doc.getElementsByTagName(name) if n.firstChild]`:
one optional string per element that has a first child (the entry is `none`
when that first child is an element, whose `nodeValue` is the Python
`None`). -/
def rawVals (doc : Doc) (name : String) : List (Option String) :=
  ((getElementsByTagName doc name).filter (fun n => n.firstChild.isSome)).map
    (fun n => n.firstChild.bind Node.nodeValue)

/-- The final `[v.strip() for v in value]` of `__discover_dc`: strips each
collected value, raising `AttributeError` when a collected `nodeValue` was
the Python `None`. -/
def mapStrip : List (Option String) → Except PyErr (List String)
  | [] => .ok []
  | none :: _ => .error .attributeError
  | some s :: rest =>
    match mapStrip rest with
    | .error e => .error e
    | .ok l => .ok (pyStrip s :: l)

/-- `__discover_dc` with `first_only=False`: collect values from the bare
tag; when that list is empty, collect from the `dc:`-prefixed tag instead
(the two passes are never merged); then strip every value. -/
def __discover_dc_list (doc : Doc) (name : String) : Except PyErr (List String) :=
  let v1 := rawVals doc name
  mapStrip (if v1.isEmpty then rawVals doc ("dc:" ++ name) else v1)

/-- The author-section header test of `_find_author_from_dom`: a `strong`
element with children whose first child is the literal text `"Author"` or
`"Authors"`. -/
def isAuthorHeader (n : Node) : Bool :=
  n.nodeName == "strong" &&
    (match n.firstChild with
     | some c => c.isTextNode && (c.nodeValue == some "Author" || c.nodeValue == some "Authors")
     | none => false)

/-- The author-candidate test of `_find_author_from_dom`: a `p` element
with children whose first child is a text node. -/
def isParaText (n : Node) : Bool :=
  n.nodeName == "p" &&
    (match n.firstChild with
     | some c => c.isTextNode
     | none => false)

/-- The stripped text of the first child of a paragraph (empty when there
is none). -/
def paraData (n : Node) : String :=
  match n.firstChild with
  | some c =>
    match c.nodeValue with
    | some d => pyStrip d
    | none => ""
  | none => ""

/-- The scanning loop of `_find_author_from_dom` over the pre-order
element stream: before the header is seen, only look for the header; after
it, stop at the first `span` and collect non-empty stripped first-child
text of every `p`. -/
def findAuthorLoop : Bool → List String → List Node → List String
  | _, authors, [] => authors
  | false, authors, n :: rest =>
    if isAuthorHeader n then findAuthorLoop true authors rest
    else findAuthorLoop false authors rest
  | true, authors, n :: rest =>
    if n.nodeName == "span" then authors
    else
      if isParaText n then
        (let d := paraData n
         if d != "" then findAuthorLoop true (authors ++ [d]) rest
         else findAuthorLoop true authors rest)
      else findAuthorLoop true authors rest

/-- `_find_author_from_dom` from the source. -/
def _find_author_from_dom (doc : Doc) : List String :=
  findAuthorLoop false [] (iterate_all_tags doc)

/-- The deduplication loop of `_discover_authors`: append each author not
already present, preserving order. -/
def dedupLoop : List String → List String → List String
  | acc, [] => acc
  | acc, a :: rest => dedupLoop (if a ∈ acc then acc else acc ++ [a]) rest

/-- The author list of `_discover_authors` before deduplication: the
`creator` passes, falling back to the HTML scan when they produced an
empty list and the fallback document exists. -/
def authorsPreDedup (doc : Doc) (authors_html : Option Doc) : Except PyErr (List String) :=
  match __discover_dc_list doc "creator" with
  | .error e => .error e
  | .ok authors =>
    .ok (if authors.isEmpty then
           match authors_html with
           | some h => _find_author_from_dom h
           | none => authors
         else authors)

/-- `_discover_authors` from the source. -/
def _discover_authors (doc : Doc) (authors_html : Option Doc) : Except PyErr (List String) :=
  match authorsPreDedup doc authors_html with
  | .error e => .error e
  | .ok authors => .ok (dedupLoop [] authors)

/-! ## Archive model and `get_epub_metadata` -/

/-- The extracted metadata dictionary. -/
structure Metadata where
  title : Option String
  authors : List String
deriving DecidableEq, Repr

/-- A zip archive: whether `zipfile.is_zipfile` accepts the file, and its
entries, indexed by internal path. An entry's value is `some doc` when the
stored bytes parse as XML to the document `doc`, and `none` when parsing
them raises an XML parse error. -/
structure Archive where
  isZip : Bool
  entries : List (String × Option Doc)

/-- `zf.read(path)` followed by nothing: the stored entry, `none` when the
archive has no such member (Python raises `KeyError`). -/
def lookupEntry (ar : Archive) (path : String) : Option (Option Doc) :=
  (ar.entries.find? (fun e => e.1 == path)).map (fun e => e.2)

/-- The guarded block of `get_epub_metadata`: read and parse the container
pointer file, take the first `rootfile` element (an `IndexError` when
there is none), read its `full-path` attribute, then read and parse the
package descriptor it points to. -/
def tryBlock (ar : Archive) : Except PyErr Doc :=
  match lookupEntry ar "META-INF/container.xml" with
  | none => .error .keyError
  | some none => .error .expatError
  | some (some cdoc) =>
    match (getElementsByTagName cdoc "rootfile").head? with
    | none => .error .indexError
    | some rf =>
      match rf.attr "full-path" with
      | none => .error .keyError
      | some opfPath =>
        match lookupEntry ar opfPath with
        | none => .error .keyError
        | some none => .error .expatError
        | some (some opfDoc) => .ok opfDoc

/-- The optional author page: `zf.read("OEBPS/pr02.html")` with a missing
entry tolerated (`except KeyError: pass`), but a parse failure
propagating. -/
def authorsHtmlRead (ar : Archive) : Except PyErr (Option Doc) :=
  match lookupEntry ar "OEBPS/pr02.html" with
  | none => .ok none
  | some none => .error .expatError
  | some (some h) => .ok (some h)

/-- `get_epub_metadata` from the source: reject non-zip files, run the
guarded block converting its `IndexError` to the metadata exception, read
the optional author page, and assemble the metadata dictionary. -/
def get_epub_metadata (ar : Archive) : Except PyErr Metadata :=
  if ar.isZip = false then .error .notAContainer
  else
    match tryBlock ar with
    | .error .indexError => .error .metadataUnavailable
    | .error e => .error e
    | .ok opfDoc =>
      match authorsHtmlRead ar with
      | .error e => .error e
      | .ok ah =>
        match _discover_authors opfDoc ah with
        | .error e => .error e
        | .ok authors => .ok ⟨_discover_title opfDoc, authors⟩

/-! ## Rename orchestration (`process_file` and the main loop)

The directory the file lives in is modelled as the list of file names it
contains; `os.rename` replaces the old name by the new one, and
`os.path.exists` is list membership. `process_file` returns the updated
directory listing together with the printed `(old, new)` mappings. -/

/-- `process_file` from the source: extract metadata, take the first
author (`IndexError` when the author list is empty — note the title is
never checked), compute the destination name, and rename unless the
destination already exists. -/
def process_file (fname : String) (ar : Archive) (fs : List String) :
    Except PyErr (List String × List (String × String)) :=
  match get_epub_metadata ar with
  | .error e => .error e
  | .ok meta =>
    match meta.authors with
    | [] => .error .indexError
    | a :: _ =>
      let destname := destName meta.title a
      if destname ∈ fs then .ok (fs, [])
      else .ok (fs.erase fname ++ [destname], [(fname, destname)])

/-- The main loop over the candidate files of one directory: each file is
processed under `try ... except Exception: pass`, so a failing file is
skipped and the batch continues. -/
def runBatch : List (String × Archive) → List String → List String × List (String × String)
  | [], fs => (fs, [])
  | (fname, ar) :: rest, fs =>
    match process_file fname ar fs with
    | .error _ => runBatch rest fs
    | .ok (fs2, evs) =>
      let r := runBatch rest fs2
      (r.1, evs ++ r.2)

/-! ## Specification-side definitions

These follow the wording of the specification and of the claims; they are
compared with the embedded source functions in refinement theorems. -/

/-- The author-section header as the claim states it: a `strong` element
whose SOLE child is the literal text `"Author"` or `"Authors"`. -/
def isAuthorHeaderSole (n : Node) : Bool :=
  n.nodeName == "strong" &&
    (match n with
     | .element _ _ (.cons (.text d) .nil) => d == "Author" || d == "Authors"
     | _ => false)

/-- Collect, in order, the non-empty stripped first-child text of every
paragraph element of a node stream. -/
def collectParas : List Node → List String
  | [] => []
  | n :: rest =>
    if isParaText n && paraData n != "" then paraData n :: collectParas rest
    else collectParas rest

/-- The fallback author parse as the specification words it, parametrised
by the header test: skip to the first header element; afterwards, keep
only the region up to the first `span` (the section boundary) and collect
the paragraph texts in it. -/
def authorSectionScan (hdr : Node → Bool) (ts : List Node) : List String :=
  match ts.dropWhile (fun t => !hdr t) with
  | [] => []
  | _ :: rest => collectParas (rest.takeWhile (fun t => !(t.nodeName == "span")))

/-- The fallback author parse exactly as the claim states it (header
requires a sole child). -/
def findAuthorClaimed (doc : Doc) : List String :=
  authorSectionScan isAuthorHeaderSole (iterate_all_tags doc)

/-- The fallback author parse as the amended claim states it (header
requires the first child to be the literal text, matching the source). -/
def findAuthorAmended (doc : Doc) : List String :=
  authorSectionScan isAuthorHeader (iterate_all_tags doc)

/-- Duplicate removal preserving first occurrences, as the claim words it:
each element appears once, at the position of its first occurrence. -/
def firstOcc : List String → List String
  | [] => []
  | a :: rest => a :: firstOcc (rest.filter (fun b => !(b == a)))
termination_by l => l.length
decreasing_by
  exact Nat.lt_succ_of_le (List.length_filter_le _ _)

/-- The sanitizer pipeline as the specification words it: compose
`"{title} - {author}"`, collapse whitespace runs, trim the ends, remove
every character that is not a word character, hyphen, dot or whitespace,
truncate to at most 254 characters, then append the extension. -/
def sanitize_spec (title author : String) : String :=
  ⟨((pyStripList (collapseWs (title ++ " - " ++ author).data)).filter allowedChar).take 254
    ++ ".epub".data⟩

/-- The condition under which the claim says extraction fails with
`MetadataUnavailableError`: the pointer file or the package descriptor
cannot be located or parsed (pointer absent or unparsable, no root-file
entry, no `full-path` attribute, or descriptor absent or unparsable). -/
def specMetadataUnavailable (ar : Archive) : Prop :=
  lookupEntry ar "META-INF/container.xml" = none
  ∨ lookupEntry ar "META-INF/container.xml" = some none
  ∨ ∃ cdoc, lookupEntry ar "META-INF/container.xml" = some (some cdoc)
      ∧ ((getElementsByTagName cdoc "rootfile").head? = none
         ∨ ∃ rf, (getElementsByTagName cdoc "rootfile").head? = some rf
             ∧ (rf.attr "full-path" = none
                ∨ ∃ p, rf.attr "full-path" = some p
                    ∧ (lookupEntry ar p = none ∨ lookupEntry ar p = some none)))

/-- Tag renaming that turns the bare metadata tag names into their
namespace-prefixed variants. -/
def nsName (t : String) : String :=
  if t = "title" ∨ t = "creator" then "dc:" ++ t else t

mutual
/-- Rename every bare `title`/`creator` tag of a node to the
`dc:`-prefixed variant. -/
def addNs : Node → Node
  | .text d => .text d
  | .element t a cs => .element (nsName t) a (addNsL cs)
/-- `addNs` on a child list. -/
def addNsL : NodeList → NodeList
  | .nil => .nil
  | .cons n rest => .cons (addNs n) (addNsL rest)
end

/-! ## Concrete inputs used by witnesses and counterexamples -/

/-- A document whose `strong` header holds the text `"Author"` as its
first of two children (so not as a sole child). -/
def c1cexDoc : Doc :=
  [el "strong" [] [txt "Author", el "em" [] [txt "!"]],
   el "p" [] [txt " Jane Doe "]]

/-- The claim's example document: header, one author paragraph, a `span`
boundary, and a paragraph beyond the boundary. -/
def c1exampleDoc : Doc :=
  [el "strong" [] [txt "Author"], el "p" [] [txt "Jane Doe"],
   el "span" [] [txt "..."], el "p" [] [txt "After the boundary"]]

/-- A descriptor with duplicate creators. -/
def c3doc : Doc :=
  [el "package" []
    [el "creator" [] [txt "Jane Doe"], el "creator" [] [txt "Jane Doe"],
     el "creator" [] [txt "John Roe"]]]

/-- A descriptor carrying a padded title. -/
def c2doc : Doc :=
  [el "package" [] [el "title" [] [txt " The Book "]]]

/-- A zip archive whose descriptor has a creator but no title element. -/
def c7ar : Archive :=
  ⟨true,
   [("META-INF/container.xml",
     some [el "container" []
            [el "rootfiles" [] [el "rootfile" [("full-path", "content.opf")] []]]]),
    ("content.opf",
     some [el "package" [] [el "metadata" [] [el "creator" [] [txt "Jane Doe"]]]])]⟩

/-- A zip archive whose descriptor stores title `"Title"` and creator
`"Author"`. -/
def c9ar : Archive :=
  ⟨true,
   [("META-INF/container.xml",
     some [el "container" []
            [el "rootfiles" [] [el "rootfile" [("full-path", "content.opf")] []]]]),
    ("content.opf",
     some [el "package" []
            [el "metadata" []
              [el "title" [] [txt "Title"], el "creator" [] [txt "Author"]]]])]⟩

/-- A descriptor with bare-only metadata tags. -/
def c8doc : Doc :=
  [el "package" [] [el "title" [] [txt " T "], el "creator" [] [txt " A "]]]

/-- A descriptor whose only creator is whitespace-only text. -/
def c10doc : Doc :=
  [el "package" [] [el "creator" [] [txt "   "]]]

/-- An author page that would yield an author if the fallback ran. -/
def c10html : Doc :=
  [el "strong" [] [txt "Author"], el "p" [] [txt "Phantom Writer"]]

/-- A generic DecidableEq for `Except`, for evaluating concrete results. -/
instance {ε α : Type} [DecidableEq ε] [DecidableEq α] : DecidableEq (Except ε α) :=
  fun a b =>
    match a, b with
    | .error e1, .error e2 =>
      if h : e1 = e2 then isTrue (by rw [h])
      else isFalse (by intro c; injection c; contradiction)
    | .ok v1, .ok v2 =>
      if h : v1 = v2 then isTrue (by rw [h])
      else isFalse (by intro c; injection c; contradiction)
    | .error _, .ok _ => isFalse (by intro c; exact Except.noConfusion c)
    | .ok _, .error _ => isFalse (by intro c; exact Except.noConfusion c)

/-! ## Helper lemmas -/

theorem findAuthorLoop_true : ∀ (ts : List Node) (authors : List String),
    findAuthorLoop true authors ts
      = authors ++ collectParas (ts.takeWhile (fun t => !(t.nodeName == "span")))
  | [], authors => by simp [findAuthorLoop, collectParas]
  | n :: rest, authors => by
    have IH := findAuthorLoop_true rest
    by_cases hspan : (n.nodeName == "span") = true
    · simp [findAuthorLoop, hspan, collectParas]
    · by_cases hpara : isParaText n = true
      · by_cases hd : (paraData n != "") = true
        · simp [findAuthorLoop, hspan, hpara, hd, collectParas, IH]
        · simp [findAuthorLoop, hspan, hpara, hd, collectParas, IH]
      · simp [findAuthorLoop, hspan, hpara, collectParas, IH]

theorem findAuthorLoop_false : ∀ ts : List Node,
    findAuthorLoop false [] ts
      = (match ts.dropWhile (fun t => !isAuthorHeader t) with
         | [] => []
         | _ :: rest => findAuthorLoop true [] rest)
  | [] => by simp [findAuthorLoop]
  | n :: rest => by
    by_cases h : isAuthorHeader n = true
    · simp [findAuthorLoop, h, List.dropWhile_cons]
    · simp only [findAuthorLoop, h, List.dropWhile_cons, Bool.not_eq_true',
        if_false, Bool.not_false, if_true]
      exact findAuthorLoop_false rest

theorem dedupLoop_eq_firstOcc_aux : ∀ (l acc : List String),
    dedupLoop acc l = acc ++ firstOcc (l.filter (fun b => decide (b ∉ acc)))
  | [], acc => by simp [dedupLoop, firstOcc]
  | a :: rest, acc => by
    by_cases h : a ∈ acc
    · rw [show dedupLoop acc (a :: rest) = dedupLoop acc rest by simp [dedupLoop, h]]
      rw [dedupLoop_eq_firstOcc_aux rest acc]
      simp [List.filter_cons, h]
    · rw [show dedupLoop acc (a :: rest) = dedupLoop (acc ++ [a]) rest by
        simp [dedupLoop, h]]
      rw [dedupLoop_eq_firstOcc_aux rest (acc ++ [a])]
      rw [show (a :: rest).filter (fun b => decide (b ∉ acc))
            = a :: rest.filter (fun b => decide (b ∉ acc)) from by
          simp [List.filter_cons, h]]
      rw [show firstOcc (a :: rest.filter (fun b => decide (b ∉ acc)))
            = a :: firstOcc ((rest.filter (fun b => decide (b ∉ acc))).filter
                (fun b => !(b == a))) from by rw [firstOcc]]
      rw [List.filter_filter]
      rw [List.filter_congr (p := fun b => decide (b ∉ acc ++ [a]))
        (q := fun b => !(b == a) && decide (b ∉ acc)) ?_]
      · simp
      · intro b _
        by_cases hba : b = a <;> by_cases hbacc : b ∈ acc <;>
          simp [hba, hbacc, List.mem_append]

theorem dedupLoop_eq_firstOcc (l : List String) : dedupLoop [] l = firstOcc l := by
  have h := dedupLoop_eq_firstOcc_aux l []
  simpa using h

theorem dedupLoop_nodup : ∀ (l acc : List String), acc.Nodup → (dedupLoop acc l).Nodup
  | [], _, h => h
  | a :: rest, acc, h => by
    by_cases ha : a ∈ acc
    · rw [show dedupLoop acc (a :: rest) = dedupLoop acc rest by simp [dedupLoop, ha]]
      exact dedupLoop_nodup rest acc h
    · rw [show dedupLoop acc (a :: rest) = dedupLoop (acc ++ [a]) rest by
        simp [dedupLoop, ha]]
      exact dedupLoop_nodup rest (acc ++ [a]) (by simp [List.nodup_append, h, ha])

/-! ## Claim theorems -/

/-- C1 counterexample: the claim requires the author header's literal text
to be its SOLE child, but the source only inspects the FIRST child; on a
`strong` element whose text `"Author"` is followed by a second child the
source finds the author while the claimed algorithm finds none. -/
theorem c1_counterexample :
    _find_author_from_dom c1cexDoc = ["Jane Doe"]
    ∧ findAuthorClaimed c1cexDoc = []
    ∧ ¬ (_find_author_from_dom c1cexDoc = findAuthorClaimed c1cexDoc) := by
  refine ⟨rfl, rfl, ?_⟩
  decide

/-- C1 (amended): the fallback author parse traverses the element tree
depth-first pre-order with an author-section flag; the flag is set at a
`strong` element whose FIRST child is the literal text `"Author"` or
`"Authors"`; once set, the scan stops entirely at the first `span`
element, and collects the non-empty stripped first-child text of every
paragraph element in between. On the claim's example document the result
is `["Jane Doe"]`, and a paragraph after the `span` boundary is not
included. -/
theorem c1_fallback_author_parse :
    (∀ doc : Doc, _find_author_from_dom doc = findAuthorAmended doc)
    ∧ _find_author_from_dom c1exampleDoc = ["Jane Doe"] := by
  refine ⟨?_, rfl⟩
  intro doc
  unfold _find_author_from_dom findAuthorAmended authorSectionScan
  rw [findAuthorLoop_false]
  cases h : (iterate_all_tags doc).dropWhile (fun t => !isAuthorHeader t) with
  | nil => rfl
  | cons hd rest => simpa using findAuthorLoop_true rest []

/-- C3: every author list the extractor returns has been deduplicated by
the accumulating loop, which agrees with keeping each author exactly once
at the position of its first occurrence; the result has no duplicates; and
the claim's example holds. -/
theorem c3_dedup_preserves_first_occurrence :
    (∀ l : List String, dedupLoop [] l = firstOcc l)
    ∧ (∀ l : List String, (dedupLoop [] l).Nodup)
    ∧ (∀ (doc : Doc) (html : Option Doc) (base : List String),
        authorsPreDedup doc html = .ok base →
        _discover_authors doc html = .ok (firstOcc base))
    ∧ dedupLoop [] ["Jane Doe", "Jane Doe", "John Roe"] = ["Jane Doe", "John Roe"] := by
  refine ⟨dedupLoop_eq_firstOcc, ?_, ?_, by decide⟩
  · intro l
    exact dedupLoop_nodup l [] List.nodup_nil
  · intro doc html base h
    unfold _discover_authors
    rw [h]
    show Except.ok (dedupLoop [] base) = Except.ok (firstOcc base)
    rw [dedupLoop_eq_firstOcc]

/-- C3 witness: on a descriptor with creators Jane Doe, Jane Doe, John
Roe, the pre-deduplication list is as expected and the extractor returns
its first-occurrence deduplication. -/
theorem c3_witness :
    authorsPreDedup c3doc none = .ok ["Jane Doe", "Jane Doe", "John Roe"]
    ∧ _discover_authors c3doc none = .ok (firstOcc ["Jane Doe", "Jane Doe", "John Roe"]) :=
  ⟨rfl, c3_dedup_preserves_first_occurrence.2.2.1 c3doc none
    ["Jane Doe", "Jane Doe", "John Roe"] rfl⟩

/-- C4: the destination name of `process_file` equals the specification's
sanitizer pipeline (compose, collapse whitespace, trim, remove disallowed
characters, truncate to 254, append the extension); its length is at most
259 characters; and it is a core of at most 254 allowed characters
followed by the extension. -/
theorem c4_sanitize_pipeline :
    ∀ title author : String,
      destNameStr title author = sanitize_spec title author
      ∧ ∃ core : List Char,
          (destNameStr title author).data = core ++ ".epub".data
          ∧ core.length ≤ 254
          ∧ ∀ c ∈ core, allowedChar c = true := by
  intro t a
  refine ⟨?_, ?_⟩
  · unfold destNameStr sanitize_spec clean_fname
    congr 1
    split
    · rfl
    · next h => rw [List.take_of_length_le (Nat.le_of_not_lt h)]
  · refine ⟨(if 254 < (clean_fname (t ++ " - " ++ a)).data.length
             then (clean_fname (t ++ " - " ++ a)).data.take 254
             else (clean_fname (t ++ " - " ++ a)).data), rfl, ?_, ?_⟩
    · split
      · next h => rw [List.length_take]; exact min_le_left _ _
      · next h => exact Nat.le_of_not_lt h
    · intro c hc
      split at hc
      · exact List.of_mem_filter (List.mem_of_mem_take hc)
      · exact List.of_mem_filter hc

/-- C5 counterexample: the sanitized name of title `"The Great: Escape?!"`
with author `"A. B. Smith"` is not the claimed
`"The Great Escape A.B. Smith.epub"`. -/
theorem c5_counterexample :
    ¬ (destNameStr "The Great: Escape?!" "A. B. Smith"
        = "The Great Escape A.B. Smith.epub") := by
  decide

/-- C5 (amended): for title `"The Great: Escape?!"` and author
`"A. B. Smith"` the sanitized destination filename is exactly
`"The Great Escape - A. B. Smith.epub"`: the colon, question mark and bang
are removed, dots and hyphens are kept, and the spaces (including the
`" - "` separator) survive unchanged. -/
theorem c5_sanitizer_example :
    destNameStr "The Great: Escape?!" "A. B. Smith"
      = "The Great Escape - A. B. Smith.epub" := rfl

/-- C7: the claim says a file whose metadata lacks a title must be
skipped, but the source never checks the title: on an archive whose
descriptor has the creator `"Jane Doe"` and no title element at all,
extraction succeeds with a null title and `process_file` renames the file
to `"None - Jane Doe.epub"` (the f-string renders the Python `None`)
instead of skipping it. -/
theorem c7_title_none_renames :
    get_epub_metadata c7ar = .ok ⟨none, ["Jane Doe"]⟩
    ∧ process_file "x.epub" c7ar ["x.epub"]
        = .ok (["None - Jane Doe.epub"], [("x.epub", "None - Jane Doe.epub")]) :=
  ⟨rfl, rfl⟩

theorem lookupStep_some (doc : Doc) (name : String) (t : String)
    (h : lookupStep doc name none = some t) :
    ∀ v, lookupStep doc name v = some t := by
  intro v
  unfold lookupStep at h ⊢
  split at h
  next hh => exact Option.noConfusion h
  next n hh =>
    split at h
    next hc => exact Option.noConfusion h
    next c hc => exact h

/-- C2: title discovery looks up the text stored in the first `title`
element; when that lookup yields non-empty text the stripped text is
returned; when it yields nothing or empty text, the `dc:title` lookup is
retried and its stripped text returned; when neither lookup yields a text
node the result is null. -/
theorem c2_title_discovery :
    ∀ doc : Doc,
      (∀ t1, lookupStep doc "title" none = some t1 → t1 ≠ "" →
        _discover_title doc = some (pyStrip t1))
      ∧ ((lookupStep doc "title" none = none ∨ lookupStep doc "title" none = some "") →
          ∀ t2, lookupStep doc "dc:title" none = some t2 → t2 ≠ "" →
            _discover_title doc = some (pyStrip t2))
      ∧ (lookupStep doc "title" none = none → lookupStep doc "dc:title" none = none →
          _discover_title doc = none) := by
  intro doc
  have hdc : ("dc:" ++ "title" : String) = "dc:title" := rfl
  refine ⟨?_, ?_, ?_⟩
  · intro t1 h1 hne
    unfold _discover_title __discover_dc_first
    rw [h1]
    simp [truthyS, hne]
  · intro hfalsy t2 h2 hne
    unfold _discover_title __discover_dc_first
    rw [hdc]
    cases hfalsy with
    | inl h0 =>
      rw [h0]
      simp only [truthyS, Bool.false_eq_true, if_false]
      rw [lookupStep_some doc "dc:title" t2 h2 none]
      simp [truthyS, hne]
    | inr h0 =>
      rw [h0]
      simp only [truthyS, bne_self_eq_false, Bool.false_eq_true, if_false]
      rw [lookupStep_some doc "dc:title" t2 h2 (some "")]
      simp [truthyS, hne]
  · intro h0 hd
    unfold _discover_title __discover_dc_first
    rw [hdc, h0]
    simp only [truthyS, Bool.false_eq_true, if_false]
    rw [hd]
    simp [truthyS]

/-- C2 witness: on a descriptor storing the padded title `" The Book "`,
the first lookup yields the padded text and extraction returns it
trimmed. -/
theorem c2_witness :
    lookupStep c2doc "title" none = some " The Book "
    ∧ _discover_title c2doc = some "The Book" := by
  refine ⟨rfl, ?_⟩
  have h := (c2_title_discovery c2doc).1 " The Book " rfl (by decide)
  exact h.trans (by decide)

/-- C9: a file already carrying its canonical name (its extracted metadata
computes a destination equal to the current name, which exists in the
directory) is left untouched: `process_file` performs no rename and
reports no mapping. -/
theorem c9_idempotent_rename :
    ∀ (fname : String) (ar : Archive) (fs : List String) (meta : Metadata)
      (a : String) (rest : List String),
      get_epub_metadata ar = .ok meta →
      meta.authors = a :: rest →
      destName meta.title a = fname →
      fname ∈ fs →
      process_file fname ar fs = .ok (fs, []) := by
  intro fname ar fs meta a rest hm ha hd hmem
  simp only [process_file, hm, ha, hd]
  simp [hmem]

/-- C9 witness: an archive extracting to title `"Title"` and author
`"Author"`, for a file already named `"Title - Author.epub"` in a
directory containing it. -/
theorem c9_witness :
    get_epub_metadata c9ar = .ok ⟨some "Title", ["Author"]⟩
    ∧ process_file "Title - Author.epub" c9ar ["Title - Author.epub"]
        = .ok (["Title - Author.epub"], []) :=
  ⟨rfl,
   c9_idempotent_rename "Title - Author.epub" c9ar ["Title - Author.epub"]
     ⟨some "Title", ["Author"]⟩ "Author" [] rfl rfl rfl (by decide)⟩

theorem mapStrip_all_empty : ∀ vs : List (Option String),
    (∀ v ∈ vs, ∃ s, v = some s ∧ pyStrip s = "") →
    mapStrip vs = .ok (List.replicate vs.length "")
  | [], _ => rfl
  | v :: rest, h => by
    obtain ⟨s, hv, hs⟩ := h v (by simp)
    subst hv
    have IH := mapStrip_all_empty rest (fun w hw => h w (by simp [hw]))
    simp [mapStrip, IH, hs, List.replicate_succ]

theorem dedupLoop_mem_const : ∀ (n : Nat) (acc : List String), "" ∈ acc →
    dedupLoop acc (List.replicate n "") = acc
  | 0, _, _ => rfl
  | n + 1, acc, h => by
    rw [List.replicate_succ]
    rw [show dedupLoop acc ("" :: List.replicate n "") = dedupLoop acc (List.replicate n "")
      from by simp [dedupLoop, h]]
    exact dedupLoop_mem_const n acc h

theorem dedup_cons_replicate (n : Nat) :
    dedupLoop [] ("" :: List.replicate n "") = [""] := by
  rw [show dedupLoop [] ("" :: List.replicate n "") = dedupLoop [""] (List.replicate n "")
    from by simp [dedupLoop]]
  exact dedupLoop_mem_const n [""] (by simp)

theorem findAuthorLoop_no_empty : ∀ (ts : List Node) (flag : Bool) (authors : List String),
    "" ∉ authors → "" ∉ findAuthorLoop flag authors ts
  | [], flag, _, h => by cases flag <;> exact h
  | n :: rest, false, authors, h => by
    by_cases hh : isAuthorHeader n = true
    · simp only [findAuthorLoop, hh, if_true]
      exact findAuthorLoop_no_empty rest true authors h
    · simp only [findAuthorLoop, hh, if_false]
      exact findAuthorLoop_no_empty rest false authors h
  | n :: rest, true, authors, h => by
    by_cases hspan : (n.nodeName == "span") = true
    · simp only [findAuthorLoop, hspan, if_true]
      exact h
    · by_cases hp : isParaText n = true
      · by_cases hd : (paraData n != "") = true
        · simp only [findAuthorLoop, hspan, hp, hd, if_true, if_false]
          refine findAuthorLoop_no_empty rest true (authors ++ [paraData n]) ?_
          intro hmem
          rcases List.mem_append.mp hmem with hc | hc
          · exact h hc
          · rw [List.mem_singleton] at hc
            exact bne_iff_ne.mp hd hc.symm
        · simp only [findAuthorLoop, hspan, hp, hd, if_true, if_false]
          exact findAuthorLoop_no_empty rest true authors h
      · simp only [findAuthorLoop, hspan, hp, if_false]
        exact findAuthorLoop_no_empty rest true authors h

/-- C10: when the descriptor's creator pass yields entries that all strip
to the empty string, extraction returns the empty string as the (single,
deduplicated) author entry, whatever author page is present — the fallback
is not invoked because the creator list is non-empty; by contrast the
HTML fallback can never produce an empty-string author. -/
theorem c10_empty_author_entries :
    (∀ (doc : Doc) (html : Option Doc),
      rawVals doc "creator" ≠ [] →
      (∀ v ∈ rawVals doc "creator", ∃ s, v = some s ∧ pyStrip s = "") →
      _discover_authors doc html = .ok [""])
    ∧ (∀ h : Doc, "" ∉ _find_author_from_dom h) := by
  constructor
  · intro doc html hne hws
    obtain ⟨v, vs, hvv⟩ : ∃ v vs, rawVals doc "creator" = v :: vs := by
      cases hh : rawVals doc "creator" with
      | nil => exact absurd hh hne
      | cons v vs => exact ⟨v, vs, rfl⟩
    have hms : mapStrip (rawVals doc "creator")
        = .ok (List.replicate (rawVals doc "creator").length "") :=
      mapStrip_all_empty _ hws
    rw [hvv] at hms
    have hdc : __discover_dc_list doc "creator" = .ok ("" :: List.replicate vs.length "") := by
      unfold __discover_dc_list
      rw [hvv]
      simp only [List.isEmpty_cons, Bool.false_eq_true, if_false]
      rw [hms]
      simp [List.replicate_succ]
    have hpre : authorsPreDedup doc html = .ok ("" :: List.replicate vs.length "") := by
      unfold authorsPreDedup
      rw [hdc]
      simp [List.isEmpty_cons]
    unfold _discover_authors
    rw [hpre]
    show Except.ok (dedupLoop [] ("" :: List.replicate vs.length "")) = .ok [""]
    rw [dedup_cons_replicate]
  · intro h
    exact findAuthorLoop_no_empty (iterate_all_tags h) false [] (by simp)

/-- C10 witness: a descriptor whose only creator is the whitespace text
`"   "` yields the author list `[""]` even in the presence of an author
page that the fallback would have read. -/
theorem c10_witness :
    rawVals c10doc "creator" = [some "   "]
    ∧ _discover_authors c10doc (some c10html) = .ok [""]
    ∧ _find_author_from_dom c10html = ["Phantom Writer"] := by
  refine ⟨rfl, ?_, rfl⟩
  apply c10_empty_author_entries.1 c10doc (some c10html) (by decide)
  intro v hv
  have hr : rawVals c10doc "creator" = [some "   "] := rfl
  rw [hr, List.mem_singleton] at hv
  exact ⟨"   ", hv, rfl⟩

theorem tryBlock_error_cases (ar : Archive) (e : PyErr) (h : tryBlock ar = .error e) :
    e = .keyError ∨ e = .expatError ∨ e = .indexError := by
  unfold tryBlock at h
  repeat' split at h
  all_goals first
    | exact Except.noConfusion h
    | (injection h with h; subst h; simp)

theorem mapStrip_error : ∀ (vs : List (Option String)) (e : PyErr),
    mapStrip vs = .error e → e = .attributeError
  | [], _, h => Except.noConfusion h
  | none :: _, _, h => by injection h with h; exact h.symm
  | some s :: rest, e, h => by
    unfold mapStrip at h
    split at h
    · next e2 he2 =>
      injection h with h
      subst h
      exact mapStrip_error rest e2 he2
    · exact Except.noConfusion h

theorem discover_authors_error (doc : Doc) (ah : Option Doc) (e : PyErr)
    (h : _discover_authors doc ah = .error e) : e = .attributeError := by
  unfold _discover_authors authorsPreDedup __discover_dc_list at h
  split at h
  · next e2 he2 =>
    split at he2
    · next e3 he3 =>
      injection h with h
      injection he2 with he2
      subst h; subst he2
      exact mapStrip_error _ e3 he3
    · exact Except.noConfusion he2
  · exact Except.noConfusion h

theorem authorsHtmlRead_error (ar : Archive) (e : PyErr)
    (h : authorsHtmlRead ar = .error e) : e = .expatError := by
  unfold authorsHtmlRead at h
  repeat' split at h
  all_goals first
    | exact Except.noConfusion h
    | (injection h with h; exact h.symm)

theorem tryBlock_indexError_iff (ar : Archive) :
    tryBlock ar = .error .indexError ↔
      ∃ cdoc, lookupEntry ar "META-INF/container.xml" = some (some cdoc)
        ∧ getElementsByTagName cdoc "rootfile" = [] := by
  constructor
  · intro h
    unfold tryBlock at h
    split at h
    · simp at h
    · simp at h
    · next cdoc hc =>
      split at h
      · next hroot =>
        exact ⟨cdoc, hc, List.head?_eq_none_iff.mp hroot⟩
      · next rf hroot =>
        split at h
        · simp at h
        · next p hp =>
          split at h
          · simp at h
          · simp at h
          · exact Except.noConfusion h
  · intro ⟨cdoc, hc, hroot⟩
    unfold tryBlock
    simp [hc, hroot]

/-- C6 counterexample: the claim says extraction fails with
`MetadataUnavailableError` exactly when the pointer file or descriptor
cannot be located or parsed, but on a valid zip with no pointer file at
all the source raises an uncaught `KeyError` from `ZipFile.read`, not its
metadata exception. -/
theorem c6_counterexample :
    specMetadataUnavailable ⟨true, []⟩
    ∧ get_epub_metadata ⟨true, []⟩ = .error .keyError
    ∧ get_epub_metadata ⟨true, []⟩ ≠ .error .metadataUnavailable := by
  refine ⟨Or.inl rfl, rfl, ?_⟩
  decide

/-- C6 (amended): extraction fails with `NotAContainerError` exactly when
the file is not a valid zip archive; it fails with
`MetadataUnavailableError` exactly when the pointer file is present and
parses but contains no root-file element (other pointer/descriptor
failures surface as lower-level `KeyError`/parse errors); and any per-file
failure makes the batch skip that file and continue. -/
theorem c6_error_taxonomy :
    (∀ ar : Archive, get_epub_metadata ar = .error .notAContainer ↔ ar.isZip = false)
    ∧ (∀ ar : Archive, get_epub_metadata ar = .error .metadataUnavailable ↔
        (ar.isZip = true ∧ ∃ cdoc, lookupEntry ar "META-INF/container.xml" = some (some cdoc)
          ∧ getElementsByTagName cdoc "rootfile" = []))
    ∧ (∀ (fname : String) (ar : Archive) (rest : List (String × Archive))
        (fs : List String) (e : PyErr),
        process_file fname ar fs = .error e →
        runBatch ((fname, ar) :: rest) fs = runBatch rest fs) := by
  refine ⟨?_, ?_, ?_⟩
  · intro ar
    constructor
    · intro h
      by_contra hz
      have hz' : ar.isZip = true := by
        revert hz; cases ar.isZip <;> simp
      unfold get_epub_metadata at h
      rw [hz'] at h
      simp only [Bool.true_eq_false, if_false] at h
      split at h
      · simp at h
      · next e' he' =>
        injection h with h
        subst h
        rcases tryBlock_error_cases ar _ he' with h1 | h1 | h1 <;> simp at h1
      · split at h
        · next e2 he2 =>
          injection h with h
          subst h
          have := authorsHtmlRead_error ar _ he2
          simp at this
        · split at h
          · next e3 he3 =>
            injection h with h
            subst h
            have := discover_authors_error _ _ _ he3
            simp at this
          · exact Except.noConfusion h
    · intro h
      unfold get_epub_metadata
      rw [h]
      simp
  · intro ar
    constructor
    · intro h
      unfold get_epub_metadata at h
      split at h
      · simp at h
      · next hz =>
        refine ⟨by revert hz; cases ar.isZip <;> simp, ?_⟩
        split at h
        · next htb =>
          exact (tryBlock_indexError_iff ar).mp htb
        · next e' he' =>
          injection h with h
          subst h
          rcases tryBlock_error_cases ar _ he' with h1 | h1 | h1 <;> simp_all
        · split at h
          · next e2 he2 =>
            injection h with h
            subst h
            have := authorsHtmlRead_error ar _ he2
            simp at this
          · split at h
            · next e3 he3 =>
              injection h with h
              subst h
              have := discover_authors_error _ _ _ he3
              simp at this
            · exact Except.noConfusion h
    · intro ⟨hz, cdoc, hc, hroot⟩
      unfold get_epub_metadata
      rw [hz]
      simp only [Bool.true_eq_false, if_false]
      rw [(tryBlock_indexError_iff ar).mpr ⟨cdoc, hc, hroot⟩]
  · intro fname ar rest fs e h
    simp only [runBatch, h]

/-- C6 witness: a non-zip file fails with the container error and the
batch continues past it unchanged. -/
theorem c6_witness :
    process_file "bad.epub" ⟨false, []⟩ [] = .error .notAContainer
    ∧ runBatch [("bad.epub", ⟨false, []⟩)] [] = runBatch [] [] :=
  ⟨rfl,
   c6_error_taxonomy.2.2 "bad.epub" ⟨false, []⟩ [] [] PyErr.notAContainer rfl⟩

theorem nodeName_addNs (n : Node) : (addNs n).nodeName = nsName n.nodeName := by
  cases n <;> simp [addNs, Node.nodeName, nsName]

theorem firstChild_addNs (n : Node) : (addNs n).firstChild = n.firstChild.map addNs := by
  cases n with
  | text d => rfl
  | element t a cs => cases cs <;> rfl

theorem nodeValue_addNs (n : Node) : (addNs n).nodeValue = n.nodeValue := by
  cases n <;> rfl

mutual
theorem iterNode_addNs : ∀ n : Node, iterNode (addNs n) = (iterNode n).map addNs
  | .text _ => rfl
  | .element t a cs => by
    simp [addNs, iterNode, iterList_addNs cs]
theorem iterList_addNs : ∀ cs : NodeList, iterList (addNsL cs) = (iterList cs).map addNs
  | .nil => rfl
  | .cons n rest => by
    simp [addNsL, iterList, iterNode_addNs n, iterList_addNs rest]
end

theorem iterate_all_tags_addNs : ∀ doc : Doc,
    iterate_all_tags (doc.map addNs) = (iterate_all_tags doc).map addNs
  | [] => rfl
  | n :: rest => by
    simp [iterate_all_tags, iterNode_addNs n, iterate_all_tags_addNs rest]

theorem nsName_ne_title (t : String) : nsName t ≠ "title" := by
  unfold nsName
  split
  · next h => rcases h with h | h <;> subst h <;> decide
  · next h =>
    push_neg at h
    exact h.1

theorem nsName_ne_creator (t : String) : nsName t ≠ "creator" := by
  unfold nsName
  split
  · next h => rcases h with h | h <;> subst h <;> decide
  · next h =>
    push_neg at h
    exact h.2

theorem nsName_eq_dc_title (t : String) (ht : t ≠ "dc:title") :
    (nsName t = "dc:title" ↔ t = "title") := by
  unfold nsName
  split
  · next h =>
    rcases h with h | h <;> subst h <;> simp
  · next h =>
    push_neg at h
    simp [ht, h.1]

theorem nsName_eq_dc_creator (t : String) (ht : t ≠ "dc:creator") :
    (nsName t = "dc:creator" ↔ t = "creator") := by
  unfold nsName
  split
  · next h =>
    rcases h with h | h <;> subst h <;> simp
  · next h =>
    push_neg at h
    simp [ht, h.2]

theorem getElements_map_bare (doc : Doc) (name : String)
    (hname : ∀ t, nsName t ≠ name) :
    getElementsByTagName (doc.map addNs) name = [] := by
  unfold getElementsByTagName
  rw [iterate_all_tags_addNs, List.filter_map]
  have hf : List.filter ((fun n => n.nodeName == name) ∘ addNs) (iterate_all_tags doc) = [] := by
    apply List.filter_eq_nil_iff.mpr
    intro n _
    simp only [Function.comp, nodeName_addNs]
    simp [hname n.nodeName]
  rw [hf]
  rfl

theorem getElements_map_dc (doc : Doc) (bare dc : String)
    (hiff : ∀ t, t ≠ dc → (nsName t = dc ↔ t = bare))
    (hfree : getElementsByTagName doc dc = []) :
    getElementsByTagName (doc.map addNs) dc = (getElementsByTagName doc bare).map addNs := by
  unfold getElementsByTagName at hfree ⊢
  rw [iterate_all_tags_addNs, List.filter_map]
  congr 1
  apply List.filter_congr
  intro n hn
  have hnfree : ¬ (n.nodeName == dc) = true := by
    intro hcontra
    exact absurd hcontra (List.filter_eq_nil_iff.mp hfree n hn)
  have hne : n.nodeName ≠ dc := by
    intro hcontra
    exact hnfree (by simp [hcontra])
  simp only [Function.comp, nodeName_addNs]
  by_cases hb : n.nodeName = bare
  · have hdc2 : nsName bare = dc := hb ▸ (hiff n.nodeName hne).mpr hb
    simp [hb, hdc2]
  · have : nsName n.nodeName ≠ dc := fun hcontra => hb ((hiff n.nodeName hne).mp hcontra)
    simp [this, hb]

theorem lookupStep_empty (doc : Doc) (name : String)
    (h : getElementsByTagName doc name = []) :
    ∀ v, lookupStep doc name v = v := by
  intro v
  unfold lookupStep
  rw [h]
  rfl

theorem discover_title_addNs (doc : Doc)
    (hfree : getElementsByTagName doc "dc:title" = []) :
    _discover_title (doc.map addNs) = _discover_title doc := by
  have hbare : getElementsByTagName (doc.map addNs) "title" = [] :=
    getElements_map_bare doc "title" nsName_ne_title
  have hmap : getElementsByTagName (doc.map addNs) "dc:title"
      = (getElementsByTagName doc "title").map addNs :=
    getElements_map_dc doc "title" "dc:title" nsName_eq_dc_title hfree
  have e1 : lookupStep (doc.map addNs) "title" none = none :=
    lookupStep_empty _ _ hbare none
  have e2 : lookupStep (doc.map addNs) "dc:title" none = lookupStep doc "title" none := by
    unfold lookupStep
    rw [hmap, List.head?_map]
    cases hh : (getElementsByTagName doc "title").head? with
    | none => rfl
    | some n =>
      show (match (addNs n).firstChild with
            | none => none
            | some c => c.nodeValue)
          = (match n.firstChild with
            | none => none
            | some c => c.nodeValue)
      rw [firstChild_addNs]
      cases hc : n.firstChild with
      | none => rfl
      | some c =>
        show (addNs c).nodeValue = c.nodeValue
        exact nodeValue_addNs c
  unfold _discover_title __discover_dc_first
  rw [show ("dc:" ++ "title" : String) = "dc:title" from rfl]
  rw [e1]
  simp only [truthyS, Bool.false_eq_true, if_false]
  rw [e2, lookupStep_empty doc "dc:title" hfree (lookupStep doc "title" none)]
  rw [ite_self]

theorem rawVals_addNs (doc : Doc)
    (hfree : getElementsByTagName doc "dc:creator" = []) :
    rawVals (doc.map addNs) "dc:creator" = rawVals doc "creator" := by
  unfold rawVals
  rw [getElements_map_dc doc "creator" "dc:creator" nsName_eq_dc_creator hfree]
  rw [List.filter_map]
  rw [List.filter_congr (q := fun n => n.firstChild.isSome) ?_]
  · rw [List.map_map]
    apply List.map_congr_left
    intro n _
    show (addNs n).firstChild.bind Node.nodeValue = n.firstChild.bind Node.nodeValue
    rw [firstChild_addNs]
    cases n.firstChild with
    | none => rfl
    | some c =>
      show (addNs c).nodeValue = c.nodeValue
      exact nodeValue_addNs c
  · intro n _
    show (addNs n).firstChild.isSome = n.firstChild.isSome
    rw [firstChild_addNs]
    cases n.firstChild <;> rfl

theorem rawVals_map_bare (doc : Doc) :
    rawVals (doc.map addNs) "creator" = [] := by
  unfold rawVals
  rw [getElements_map_bare doc "creator" nsName_ne_creator]
  rfl

theorem discover_creators_addNs (doc : Doc)
    (hfree : getElementsByTagName doc "dc:creator" = []) :
    __discover_dc_list (doc.map addNs) "creator" = __discover_dc_list doc "creator" := by
  unfold __discover_dc_list
  rw [show ("dc:" ++ "creator" : String) = "dc:creator" from rfl]
  rw [rawVals_map_bare doc, rawVals_addNs doc hfree]
  have hdcraw : rawVals doc "dc:creator" = [] := by
    unfold rawVals
    rw [hfree]
    rfl
  rw [hdcraw]
  cases hvv : rawVals doc "creator" with
  | nil => simp
  | cons v vs => simp [List.isEmpty_cons]

theorem discover_authors_addNs (doc : Doc) (html : Option Doc)
    (hfree : getElementsByTagName doc "dc:creator" = []) :
    _discover_authors (doc.map addNs) html = _discover_authors doc html := by
  unfold _discover_authors authorsPreDedup
  rw [discover_creators_addNs doc hfree]

/-- C8: the creator collection makes two independent passes that are never
merged — when the bare pass is non-empty its stripped values are the
result, and only when it is empty does the `dc:`-prefixed pass supply
them; consequently a descriptor carrying only bare metadata tags and the
same descriptor with those tags renamed to their `dc:` variants extract to
the same title and the same authors (the namespace fallback is
transparent). -/
theorem c8_namespace_fallback :
    (∀ doc : Doc, rawVals doc "creator" ≠ [] →
      __discover_dc_list doc "creator" = mapStrip (rawVals doc "creator"))
    ∧ (∀ doc : Doc, rawVals doc "creator" = [] →
      __discover_dc_list doc "creator" = mapStrip (rawVals doc "dc:creator"))
    ∧ (∀ (doc : Doc) (html : Option Doc),
        getElementsByTagName doc "dc:title" = [] →
        getElementsByTagName doc "dc:creator" = [] →
        _discover_title (doc.map addNs) = _discover_title doc
        ∧ _discover_authors (doc.map addNs) html = _discover_authors doc html) := by
  refine ⟨?_, ?_, ?_⟩
  · intro doc hne
    unfold __discover_dc_list
    cases hvv : rawVals doc "creator" with
    | nil => exact absurd hvv hne
    | cons v vs => simp [List.isEmpty_cons]
  · intro doc hnil
    unfold __discover_dc_list
    rw [hnil]
    rfl
  · intro doc html htitle hcreator
    exact ⟨discover_title_addNs doc htitle, discover_authors_addNs doc html hcreator⟩

/-- C8 witness: a descriptor with bare-only tags (title `" T "`, creator
`" A "`) has no `dc:` tags, and renaming its tags to the `dc:` variants
leaves the extracted title and authors unchanged. -/
theorem c8_witness :
    getElementsByTagName c8doc "dc:title" = []
    ∧ getElementsByTagName c8doc "dc:creator" = []
    ∧ _discover_title (c8doc.map addNs) = _discover_title c8doc
    ∧ _discover_authors (c8doc.map addNs) none = _discover_authors c8doc none
    ∧ _discover_title c8doc = some "T"
    ∧ _discover_authors c8doc none = .ok ["A"] := by
  refine ⟨rfl, rfl, ?_, ?_, rfl, rfl⟩
  · exact (c8_namespace_fallback.2.2 c8doc none rfl rfl).1
  · exact (c8_namespace_fallback.2.2 c8doc none rfl rfl).2
